import Mathlib

/-!
Verification of the snippet-store data model of Shift-Prompter (`main.py`).

The program keeps its whole state in one JSON document (`prompts_data`).
We embed that document and the operations of `PromptWindow` /
`ShiftPrompterApp` as pure Lean functions: the Python code mutates
`self.prompts_data` in place, which we model as functions
`Document → Document` (or returning a pair with a status where the code
may show a warning dialog instead of mutating).
-/

namespace ShiftPrompter

/-- A prompt snippet: the dict `{"name": ..., "content": ...}`. -/
structure Snippet where
  name : String
  content : String
deriving DecidableEq, Repr

/-- A category as stored after loading: the dict
`{"name": ..., "prompts": [...], "expanded": ...}` with all keys present. -/
structure Category where
  name : String
  prompts : List Snippet
  expanded : Bool
deriving DecidableEq, Repr

/-- The in-memory store `prompts_data` in its schema-conformant form: all
keys of the version-2 schema present.  `version` stays optional because
nothing in `load_prompts` back-fills a missing `"version"` key. -/
structure Document where
  version : Option Nat
  categories : List Category
  uncategorized : List Snippet
  uncategorized_expanded : Bool
deriving DecidableEq, Repr

/-- Source `DATA_VERSION = 2` (main.py line 33). -/
def DATA_VERSION : Nat := 2

/-- Source `PromptWindow.UNCATEGORIZED_NAME = "Uncategorized"` (line 164). -/
def UNCATEGORIZED_NAME : String := "Uncategorized"

/-- A category dict as it may appear in the JSON file before the loader's
back-fill: the `"expanded"` key may be absent (`none`). -/
structure RawCategory where
  name : String
  prompts : List Snippet
  expanded : Option Bool
deriving DecidableEq, Repr

/-- A JSON-object store file before the loader's back-fill: any of the
keys `"version"`, `"categories"`, `"uncategorized"`,
`"uncategorized_expanded"` may be absent (`none`). -/
structure RawDocument where
  version : Option Nat
  categories : Option (List RawCategory)
  uncategorized : Option (List Snippet)
  uncategorized_expanded : Option Bool
deriving DecidableEq, Repr

/-- The two JSON shapes `load_prompts` distinguishes with
`isinstance(data, list)` (line 216): a legacy bare array of snippets, or
a JSON object (dict). -/
inductive RawData where
  | legacy (snippets : List Snippet)
  | doc (d : RawDocument)
deriving DecidableEq, Repr

/-- Source `PromptWindow.migrate_prompts_data` (lines 208-209): wraps a legacy
bare list as `{"version": DATA_VERSION, "categories": [], "uncategorized":
old_data}`.  Note that no `"uncategorized_expanded"` key is produced. -/
def migrate_prompts_data (old_data : List Snippet) : RawDocument :=
  { version := some DATA_VERSION
    categories := some []
    uncategorized := some old_data
    uncategorized_expanded := none }

/-- The back-fill block of `load_prompts` (lines 220-223): adds
`"uncategorized"` (default `[]`) and `"uncategorized_expanded"` (default
`True`) when absent, and adds `"expanded" = True` to every category that
lacks it.  A missing `"categories"` key itself is left missing (the loop
iterates `self.prompts_data.get("categories", [])` without storing it). -/
def backfill_loaded (d : RawDocument) : RawDocument :=
  { d with
    uncategorized := some (d.uncategorized.getD [])
    uncategorized_expanded := some (d.uncategorized_expanded.getD true)
    categories := d.categories.map (fun cats =>
      cats.map (fun c => { c with expanded := some (c.expanded.getD true) })) }

/-- The full migration performed by `load_prompts` on decoded data (lines
216 and 220-223): wrap a legacy list with `migrate_prompts_data`, then
back-fill missing fields. -/
def load_migrate : RawData → RawDocument
  | .legacy l => backfill_loaded (migrate_prompts_data l)
  | .doc d => backfill_loaded d

/-- The seeded default store (line 218), written when the file is absent. -/
def default_prompts_data : RawDocument :=
  { version := some DATA_VERSION
    categories := some [{ name := "Email"
                          prompts := [{ name := "Closing", content := "Kind regards,\n\n" }]
                          expanded := some true }]
    uncategorized := some [{ name := "Quick Question", content := "Hi, I have a quick question: " }]
    uncategorized_expanded := some true }

/-- The possible situations `load_prompts` faces at the backing file:
the file is absent; the file is present but `open`/`json.load` raises
(`IOError` or `json.JSONDecodeError` — in particular an empty file is not
valid JSON); or the file decodes to JSON data. -/
inductive LoadInput where
  | absent
  | unreadable
  | parsed (r : RawData)
deriving DecidableEq, Repr

/-- Outcome of `load_prompts`: either `prompts_data` is set to a document
(then saved and displayed), or the `except` branch of lines 225 shows a
warning and `prompts_data` is left untouched. -/
inductive LoadResult where
  | ok (d : RawDocument)
  | loadError
deriving DecidableEq, Repr

/-- Source `PromptWindow.load_prompts` (lines 211-225) as a function of the file
state: absent file seeds `default_prompts_data`, a read/decode failure
ends in the `except` branch, decoded data is migrated/back-filled.  The
back-fill block also runs over the seeded default (where it changes
nothing). -/
def load_prompts : LoadInput → LoadResult
  | .absent => .ok (backfill_loaded default_prompts_data)
  | .unreadable => .loadError
  | .parsed r => .ok (load_migrate r)

/-- Whether `load_prompts` reaches the `self.save_prompts()` call on line
224 (it does unless the `try` block raised). -/
def load_calls_save : LoadInput → Bool
  | .unreadable => false
  | _ => true

/-- Source `PromptWindow.get_category_names` (lines 281-282):
`["Uncategorized"] + [c["name"] for c in categories]`. -/
def get_category_names (doc : Document) : List String :=
  UNCATEGORIZED_NAME :: doc.categories.map (fun c => c.name)

/-- Source `PromptWindow.find_prompt_list` (lines 284-286): `"Uncategorized"`
resolves to the uncategorized list, any other name to the prompt list of
the first category with that name, or `none`. -/
def find_prompt_list (doc : Document) (category_name : String) : Option (List Snippet) :=
  if category_name = UNCATEGORIZED_NAME then some doc.uncategorized
  else (doc.categories.find? (fun c => c.name = category_name)).map (fun c => c.prompts)

/-- Helper for modelling in-place mutation of the list returned by
`find_prompt_list`: replace the prompt list of the first category named
`n` (other categories untouched; no match leaves the list unchanged). -/
def set_category_prompts : List Category → String → List Snippet → List Category
  | [], _, _ => []
  | c :: cs, n, l =>
    if c.name = n then { c with prompts := l } :: cs
    else c :: set_category_prompts cs n l

/-- Writing back through the reference `find_prompt_list` returned: in
Python the returned list object is mutated in place; functionally, the
document with that list replaced. -/
def set_prompt_list (doc : Document) (category_name : String) (l : List Snippet) : Document :=
  if category_name = UNCATEGORIZED_NAME then { doc with uncategorized := l }
  else { doc with categories := set_category_prompts doc.categories category_name l }

/-- Source `PromptWindow.add_prompt` (lines 297-305), after the dialog returned
`(name, content, category_name)` with `accepted = dialog.exec()`.  An
empty name or content shows the "Input Error" warning (`some msg`) and
changes nothing; otherwise the new snippet is appended to the resolved
list (or nowhere, when the category name resolves to no list). -/
def add_prompt (doc : Document) (accepted : Bool) (name content category_name : String) :
    Document × Option String :=
  if accepted then
    if name = "" ∨ content = "" then
      (doc, some "Name and content cannot be empty.")
    else
      match find_prompt_list doc category_name with
      | some l => (set_prompt_list doc category_name (l ++ [⟨name, content⟩]), none)
      | none => (doc, none)
  else (doc, none)

/-- Source `PromptWindow.add_category` (lines 307-312), with `ok` and `text`
from the input dialog.  `if ok and text:` guards everything; a name
already in `get_category_names` shows the "Error" warning (`some msg`)
and changes nothing; otherwise `{name, prompts: [], expanded: True}` is
appended. -/
def add_category (doc : Document) (ok : Bool) (text : String) :
    Document × Option String :=
  if ok ∧ text ≠ "" then
    if text ∈ get_category_names doc then
      (doc, some "A category with this name already exists.")
    else
      ({ doc with categories := doc.categories ++ [{ name := text, prompts := [], expanded := true }] }, none)
  else (doc, none)

/-- The category branch of `PromptWindow.delete_item` (lines 337-346):
deleting `"Uncategorized"` returns before the confirmation dialog; with
confirmation, the first category of that name (if any) has its prompts
extended onto `uncategorized` and is removed (`list.remove` deletes the
first element equal to it). -/
def delete_item_category (doc : Document) (name : String) (confirmed : Bool) : Document :=
  if name = UNCATEGORIZED_NAME then doc
  else if confirmed then
    match doc.categories.find? (fun c => c.name = name) with
    | some cat =>
        { doc with
          uncategorized := doc.uncategorized ++ cat.prompts
          categories := doc.categories.erase cat }
    | none => doc
  else doc

/-- Source `PromptWindow.handle_prompt_move` (lines 353-360): find the first
snippet named `prompt_name` in the source list; if found, remove it
(`list.remove`: first equal element on the live source list), then append
it to the destination list when that resolves.  Removal happens before
the destination is resolved. -/
def handle_prompt_move (doc : Document) (prompt_name old_c_name new_c_name : String) : Document :=
  match find_prompt_list doc old_c_name with
  | none => doc
  | some old_p_list =>
    match old_p_list.find? (fun p => p.name = prompt_name) with
    | none => doc
    | some prompt =>
      let doc1 := set_prompt_list doc old_c_name (old_p_list.erase prompt)
      match find_prompt_list doc1 new_c_name with
      | none => doc1
      | some new_p_list => set_prompt_list doc1 new_c_name (new_p_list ++ [prompt])

/-- Source `prompt_list.pop(dragged_idx)` followed by
`prompt_list.insert(target_idx, moved_item)` (lines 368-369), for a valid
`i` (as produced by a successful index search). -/
def pop_insert (l : List Snippet) (i j : Nat) : List Snippet :=
  match l[i]? with
  | some x => (l.eraseIdx i).insertIdx j x
  | none => l

/-- Source `PromptWindow.handle_prompt_reorder` (lines 362-370): both first-match
indices are computed on the list as it stands before any removal; only
when both exist is the dragged snippet popped and re-inserted at the
pre-removal target index. -/
def handle_prompt_reorder (doc : Document) (category_name dragged_prompt_name target_prompt_name : String) :
    Document :=
  match find_prompt_list doc category_name with
  | none => doc
  | some prompt_list =>
    match prompt_list.findIdx? (fun p => p.name = dragged_prompt_name),
          prompt_list.findIdx? (fun p => p.name = target_prompt_name) with
    | some dragged_idx, some target_idx =>
        set_prompt_list doc category_name (pop_insert prompt_list dragged_idx target_idx)
    | _, _ => doc

/-- Source `cats.pop(drag_idx)` / `cats.insert(target_idx, ...)` for categories
(line 377). -/
def pop_insert_cat (l : List Category) (i j : Nat) : List Category :=
  match l[i]? with
  | some x => (l.eraseIdx i).insertIdx j x
  | none => l

/-- Source `PromptWindow.handle_category_reorder` (lines 372-378): same
pop/insert splice on `prompts_data["categories"]`, guarded by both names
having a first-match index. -/
def handle_category_reorder (doc : Document) (dragged_name target_name : String) : Document :=
  match doc.categories.findIdx? (fun c => c.name = dragged_name),
        doc.categories.findIdx? (fun c => c.name = target_name) with
  | some drag_idx, some target_idx =>
      { doc with categories := pop_insert_cat doc.categories drag_idx target_idx }
  | _, _ => doc

/-- Source `DOUBLE_TAP_THRESHOLD_S = 0.4` (line 32); `time.monotonic` values are
modelled as rationals. -/
def DOUBLE_TAP_THRESHOLD_S : ℚ := 0.4

/-- The keys delivered by the keyboard listener; the handler only reacts
to the three shift keys (line 407). -/
inductive Key where
  | shift
  | shift_l
  | shift_r
  | other (code : Nat)
deriving DecidableEq, Repr

/-- Source `key in {keyboard.Key.shift, keyboard.Key.shift_l, keyboard.Key.shift_r}`. -/
def isShiftKey : Key → Bool
  | .shift => true
  | .shift_l => true
  | .shift_r => true
  | .other _ => false

/-- The double-tap detector state: `self.last_shift_press_time`. -/
structure TapState where
  last_shift_press_time : ℚ
deriving DecidableEq, Repr

/-- Source `ShiftPrompterApp.on_shift_press` (lines 406-410) as a step function:
given the state and the monotonic time of the event, returns the new
state and whether `toggle_window_signal.emit()` was called. -/
def on_shift_press (s : TapState) (key : Key) (current_time : ℚ) : TapState × Bool :=
  if isShiftKey key then
    ({ last_shift_press_time := current_time },
     decide (current_time - s.last_shift_press_time < DOUBLE_TAP_THRESHOLD_S))
  else (s, false)

/-! ### Generic list lemmas used below -/

theorem findIdx?_append_cons_first {α : Type} (p : α → Bool) (A : List α) (x : α) (Y : List α)
    (hA : ∀ a ∈ A, p a = false) (hx : p x = true) :
    (A ++ x :: Y).findIdx? p = some A.length := by
  induction A with
  | nil => simp [hx]
  | cons a A ih =>
    have ha : p a = false := hA a (List.mem_cons_self a A)
    simp only [List.cons_append, List.findIdx?_cons, ha, if_neg Bool.false_ne_true,
      List.findIdx?_succ]
    rw [ih (fun a h => hA a (List.mem_cons_of_mem _ h))]
    simp [Nat.add_comm]

theorem getElem?_append_cons {α : Type} (A : List α) (x : α) (Y : List α) :
    (A ++ x :: Y)[A.length]? = some x := by
  induction A with
  | nil => simp
  | cons a A ih => simpa using ih

theorem eraseIdx_append_cons {α : Type} (A : List α) (x : α) (Y : List α) :
    (A ++ x :: Y).eraseIdx A.length = A ++ Y := by
  induction A with
  | nil => simp
  | cons a A ih => simpa using ih

theorem insertIdx_append_cons {α : Type} (A : List α) (x : α) (Y : List α) :
    (A ++ Y).insertIdx A.length x = A ++ x :: Y := by
  induction A with
  | nil => simp
  | cons a A ih => simpa using ih

theorem insertIdx_perm_cons {α : Type} (x : α) :
    ∀ (n : Nat) (l : List α), n ≤ l.length → (l.insertIdx n x).Perm (x :: l)
  | 0, l, _ => by simp
  | n + 1, [], h => by simp at h
  | n + 1, a :: l, h => by
    have ih := insertIdx_perm_cons x n l (by simpa using h)
    have h1 : ((a :: l).insertIdx (n + 1) x) = a :: l.insertIdx n x := by simp
    rw [h1]
    exact (ih.cons a).trans (List.Perm.swap x a l)

theorem cons_eraseIdx_perm {α : Type} :
    ∀ (l : List α) (i : Nat) (x : α), l[i]? = some x → (x :: l.eraseIdx i).Perm l
  | [], i, x, h => by simp at h
  | a :: l, 0, x, h => by
    simp only [List.getElem?_cons_zero, Option.some.injEq] at h
    subst h; simp [List.eraseIdx]
  | a :: l, i + 1, x, h => by
    simp only [List.getElem?_cons_succ] at h
    have ih := cons_eraseIdx_perm l i x h
    have h1 : (x :: (a :: l).eraseIdx (i + 1)) = x :: a :: l.eraseIdx i := by
      simp [List.eraseIdx]
    rw [h1]
    exact (List.Perm.swap a x _).trans (ih.cons a)

theorem getElem?_some_lt_length {α : Type} {l : List α} {i : Nat} {x : α}
    (h : l[i]? = some x) : i < l.length :=
  List.getElem?_eq_some.mp h |>.1

theorem pop_insert_perm (l : List Snippet) (i j : Nat) (hj : j < l.length) :
    (pop_insert l i j).Perm l := by
  unfold pop_insert
  match h : l[i]? with
  | none => exact List.Perm.refl l
  | some x =>
    have hi := getElem?_some_lt_length h
    have h1 : ((l.eraseIdx i).insertIdx j x).Perm (x :: l.eraseIdx i) := by
      apply insertIdx_perm_cons
      rw [List.length_eraseIdx_of_lt hi]
      omega
    exact h1.trans (cons_eraseIdx_perm l i x h)

theorem pop_insert_cat_perm (l : List Category) (i j : Nat) (hj : j < l.length) :
    (pop_insert_cat l i j).Perm l := by
  unfold pop_insert_cat
  match h : l[i]? with
  | none => exact List.Perm.refl l
  | some x =>
    have hi := getElem?_some_lt_length h
    have h1 : ((l.eraseIdx i).insertIdx j x).Perm (x :: l.eraseIdx i) := by
      apply insertIdx_perm_cons
      rw [List.length_eraseIdx_of_lt hi]
      omega
    exact h1.trans (cons_eraseIdx_perm l i x h)

/-! ### Lemmas about `find_prompt_list` and `set_prompt_list` -/

theorem find?_set_category_prompts_same (cats : List Category) (n : String) (l : List Snippet)
    {cat : Category} (h : cats.find? (fun c => c.name = n) = some cat) :
    (set_category_prompts cats n l).find? (fun c => c.name = n) = some { cat with prompts := l } := by
  induction cats with
  | nil => simp at h
  | cons c cs ih =>
    by_cases hc : c.name = n
    · rw [List.find?_cons_of_pos _ (by simp [hc])] at h
      simp only [Option.some.injEq] at h
      subst h
      simp [set_category_prompts, hc, List.find?_cons_of_pos]
    · rw [List.find?_cons_of_neg _ (by simp [hc])] at h
      simp only [set_category_prompts, if_neg hc]
      rw [List.find?_cons_of_neg _ (by simp [hc])]
      exact ih h

theorem find?_set_category_prompts_other (cats : List Category) (n m : String) (l : List Snippet)
    (hnm : n ≠ m) :
    (set_category_prompts cats n l).find? (fun c => c.name = m) =
      cats.find? (fun c => c.name = m) := by
  induction cats with
  | nil => simp [set_category_prompts]
  | cons c cs ih =>
    by_cases hc : c.name = n
    · have hm : ¬ c.name = m := fun hcm => hnm (hc ▸ hcm ▸ rfl)
      simp only [set_category_prompts, if_pos hc]
      rw [List.find?_cons_of_neg _ (by simp [hm]), List.find?_cons_of_neg _ (by simp [hm])]
    · simp only [set_category_prompts, if_neg hc]
      by_cases hm : c.name = m
      · rw [List.find?_cons_of_pos _ (by simp [hm]), List.find?_cons_of_pos _ (by simp [hm])]
      · rw [List.find?_cons_of_neg _ (by simp [hm]), List.find?_cons_of_neg _ (by simp [hm])]
        exact ih

theorem find_set_prompt_list_same (doc : Document) (cn : String) (l l0 : List Snippet)
    (h : find_prompt_list doc cn = some l0) :
    find_prompt_list (set_prompt_list doc cn l) cn = some l := by
  by_cases hu : cn = UNCATEGORIZED_NAME
  · simp [find_prompt_list, set_prompt_list, hu]
  · simp only [find_prompt_list, set_prompt_list, if_neg hu, Option.map_eq_some'] at h ⊢
    obtain ⟨cat, hcat, rfl⟩ := h
    exact ⟨{ cat with prompts := l }, find?_set_category_prompts_same _ _ _ hcat, rfl⟩

theorem find_set_prompt_list_other (doc : Document) (cn cm : String) (l : List Snippet)
    (h : cn ≠ cm) :
    find_prompt_list (set_prompt_list doc cn l) cm = find_prompt_list doc cm := by
  by_cases hu : cn = UNCATEGORIZED_NAME
  · have hm : ¬ cm = UNCATEGORIZED_NAME := fun hcm => h (hu.trans hcm.symm)
    simp [find_prompt_list, set_prompt_list, hu, hm]
  · by_cases hm : cm = UNCATEGORIZED_NAME
    · simp [find_prompt_list, set_prompt_list, hu, hm]
    · simp only [find_prompt_list, set_prompt_list, if_neg hu, if_neg hm]
      rw [find?_set_category_prompts_other _ _ _ _ h]

/-! ### The pointwise document relation used for the reorder invariant -/

/-- Two documents agree everywhere except that the uncategorized list and
each category's prompt list may be permuted (categories correspond
pointwise: same names, same expansion flags). -/
def DocPerm (d1 d2 : Document) : Prop :=
  d1.version = d2.version ∧
  d1.uncategorized_expanded = d2.uncategorized_expanded ∧
  d1.uncategorized.Perm d2.uncategorized ∧
  List.Forall₂ (fun c1 c2 : Category =>
    c1.name = c2.name ∧ c1.expanded = c2.expanded ∧ c1.prompts.Perm c2.prompts)
    d1.categories d2.categories

theorem forall₂_perm_refl (cats : List Category) :
    List.Forall₂ (fun c1 c2 : Category =>
      c1.name = c2.name ∧ c1.expanded = c2.expanded ∧ c1.prompts.Perm c2.prompts) cats cats := by
  induction cats with
  | nil => exact List.Forall₂.nil
  | cons c cs ih => exact List.Forall₂.cons ⟨rfl, rfl, List.Perm.refl _⟩ ih

theorem docPerm_refl (doc : Document) : DocPerm doc doc :=
  ⟨rfl, rfl, List.Perm.refl _, forall₂_perm_refl _⟩

theorem forall₂_set_category_prompts (cats : List Category) (n : String)
    {cat : Category} (hfind : cats.find? (fun c => c.name = n) = some cat)
    (l : List Snippet) (hperm : l.Perm cat.prompts) :
    List.Forall₂ (fun c1 c2 : Category =>
      c1.name = c2.name ∧ c1.expanded = c2.expanded ∧ c1.prompts.Perm c2.prompts)
      (set_category_prompts cats n l) cats := by
  induction cats with
  | nil => exact List.Forall₂.nil
  | cons c cs ih =>
    by_cases hc : c.name = n
    · rw [List.find?_cons_of_pos _ (by simp [hc])] at hfind
      simp only [Option.some.injEq] at hfind
      subst hfind
      simp only [set_category_prompts, if_pos hc]
      exact List.Forall₂.cons ⟨rfl, rfl, hperm⟩ (forall₂_perm_refl cs)
    · rw [List.find?_cons_of_neg _ (by simp [hc])] at hfind
      simp only [set_category_prompts, if_neg hc]
      exact List.Forall₂.cons ⟨rfl, rfl, List.Perm.refl _⟩ (ih hfind)

theorem docPerm_set_prompt_list (doc : Document) (cn : String) (l l0 : List Snippet)
    (hfind : find_prompt_list doc cn = some l0) (hperm : l.Perm l0) :
    DocPerm (set_prompt_list doc cn l) doc := by
  by_cases hu : cn = UNCATEGORIZED_NAME
  · simp only [find_prompt_list, if_pos hu, Option.some.injEq] at hfind
    subst hfind
    exact ⟨by simp [set_prompt_list, hu], by simp [set_prompt_list, hu],
      by simpa [set_prompt_list, hu] using hperm,
      by simp [set_prompt_list, hu, forall₂_perm_refl]⟩
  · simp only [find_prompt_list, if_neg hu, Option.map_eq_some'] at hfind
    obtain ⟨cat, hcat, rfl⟩ := hfind
    exact ⟨by simp [set_prompt_list, hu], by simp [set_prompt_list, hu],
      by simp [set_prompt_list, hu],
      by simpa [set_prompt_list, hu] using forall₂_set_category_prompts _ _ hcat _ hperm⟩

/-! ### Migration lemmas -/

theorem backfill_loaded_idem (d : RawDocument) :
    backfill_loaded (backfill_loaded d) = backfill_loaded d := by
  cases d with
  | mk v cs u ue =>
    cases cs with
    | none => simp [backfill_loaded]
    | some cats => simp [backfill_loaded, List.map_map, Function.comp]

/-- A document in the current on-disk shape: all keys of the version-2
schema present (the `"version"` value itself is not touched by the
loader, so it is not constrained here). -/
def RawDocument.isCurrent (d : RawDocument) : Prop :=
  d.categories.isSome = true ∧
  d.uncategorized.isSome = true ∧
  d.uncategorized_expanded.isSome = true ∧
  ∀ c ∈ d.categories.getD [], c.expanded.isSome = true

instance (d : RawDocument) : Decidable d.isCurrent := by
  unfold RawDocument.isCurrent; infer_instance

theorem map_fill_expanded_of_all_some :
    ∀ (cl : List RawCategory), (∀ c ∈ cl, c.expanded.isSome = true) →
      cl.map (fun c => { c with expanded := some (c.expanded.getD true) }) = cl
  | [], _ => rfl
  | c :: cs, h => by
    obtain ⟨b, hb⟩ := Option.isSome_iff_exists.mp (h c (List.mem_cons_self c cs))
    have ih := map_fill_expanded_of_all_some cs (fun x hx => h x (List.mem_cons_of_mem _ hx))
    cases c with
    | mk n ps e =>
      simp only [Option.some.injEq] at hb
      simp [hb, ih]

theorem backfill_loaded_of_isCurrent (d : RawDocument) (h : d.isCurrent) :
    backfill_loaded d = d := by
  obtain ⟨hc, hu, he, hx⟩ := h
  cases d with
  | mk v cs u ue =>
    obtain ⟨cats, rfl⟩ := Option.isSome_iff_exists.mp hc
    obtain ⟨uu, rfl⟩ := Option.isSome_iff_exists.mp hu
    obtain ⟨ee, rfl⟩ := Option.isSome_iff_exists.mp he
    simp only [Option.getD_some] at hx
    simp [backfill_loaded, map_fill_expanded_of_all_some cats hx]

/-! ### Category list lemmas for deletion -/

theorem find?_name_of_mem_nodup (cats : List Category) (c : Category)
    (hnodup : (cats.map (fun c => c.name)).Nodup) (hmem : c ∈ cats) :
    cats.find? (fun x => x.name = c.name) = some c := by
  induction cats with
  | nil => simp at hmem
  | cons a cs ih =>
    simp only [List.map_cons, List.nodup_cons] at hnodup
    rcases List.mem_cons.mp hmem with rfl | hmem'
    · exact List.find?_cons_of_pos _ (by simp)
    · by_cases ha : a.name = c.name
      · exact absurd (ha ▸ List.mem_map_of_mem (fun x => x.name) hmem') hnodup.1
      · rw [List.find?_cons_of_neg _ (by simp [ha])]
        exact ih hnodup.2 hmem'

theorem name_not_mem_erase_of_nodup (cats : List Category) (c : Category)
    (hnodup : (cats.map (fun c => c.name)).Nodup) (hmem : c ∈ cats) :
    c.name ∉ (cats.erase c).map (fun x => x.name) := by
  induction cats with
  | nil => simp at hmem
  | cons a cs ih =>
    simp only [List.map_cons, List.nodup_cons] at hnodup
    by_cases hac : a = c
    · subst hac
      rw [List.erase_cons_head]
      exact hnodup.1
    · have hmem' : c ∈ cs := (List.mem_cons.mp hmem).resolve_left (fun h => hac h.symm)
      rw [List.erase_cons_tail (by simp [hac])]
      have hanc : a.name ≠ c.name := by
        intro h
        exact hnodup.1 (h ▸ List.mem_map_of_mem (fun x => x.name) hmem')
      simp only [List.map_cons, List.mem_cons]
      rintro (h | h)
      · exact hanc h.symm
      · exact ih hnodup.2 hmem' h

/-! ### Claim theorems -/

/-- C3 (amended): for every legacy input, `migrate_prompts_data` wraps it
as `{version: 2, categories: [], uncategorized: input}` with no
`uncategorized_expanded` field; the loader's back-fill then sets
`uncategorized_expanded` to `true`, so the migrated-and-loaded document
is `{version: 2, categories: [], uncategorized: input,
uncategorized_expanded: true}`. -/
theorem migrate_legacy_wrap (l : List Snippet) :
    migrate_prompts_data l =
      { version := some DATA_VERSION, categories := some [], uncategorized := some l,
        uncategorized_expanded := none } ∧
    load_migrate (.legacy l) =
      { version := some DATA_VERSION, categories := some [], uncategorized := some l,
        uncategorized_expanded := some true } :=
  ⟨rfl, rfl⟩

/-- C3 counterexample: on the legacy input `[{"name":"A","content":"B"}]`
the result of `migrate_prompts_data` itself does not contain
`uncategorized_expanded == true`: the field is absent (`none`). -/
theorem migrate_no_uncategorized_expanded :
    (migrate_prompts_data [{ name := "A", content := "B" }]).uncategorized_expanded = none ∧
    (none : Option Bool) ≠ some true :=
  ⟨rfl, by simp⟩

/-- C4: the full load-time migration (legacy wrapping plus back-fill of
`uncategorized`, `uncategorized_expanded` and per-category `expanded`) is
idempotent, and migrating an already-current document is a no-op. -/
theorem migrate_idempotent :
    (∀ r : RawData, load_migrate (.doc (load_migrate r)) = load_migrate r) ∧
    (∀ d : RawDocument, d.isCurrent → load_migrate (.doc d) = d) := by
  constructor
  · intro r
    cases r with
    | legacy l => exact backfill_loaded_idem _
    | doc d => exact backfill_loaded_idem d
  · intro d h
    exact backfill_loaded_of_isCurrent d h

/-- C4 witness: the seeded default document is current, and migrating it
changes nothing. -/
theorem migrate_idempotent_witness :
    default_prompts_data.isCurrent ∧
    load_migrate (.doc default_prompts_data) = default_prompts_data :=
  ⟨by decide, migrate_idempotent.2 default_prompts_data (by decide)⟩

/-- C5 (amended): when the store file is absent, `load_prompts` returns
the seeded default document — one category `"Email"` with the single
snippet `Closing` and the single uncategorized snippet `Quick Question` —
and reaches the persisting `save_prompts()` call.  (An empty store file
is not absent: it raises a JSON decode error instead, see the
counterexample.) -/
theorem load_absent_seeds_default :
    load_prompts .absent =
      .ok { version := some DATA_VERSION
            categories := some [{ name := "Email"
                                  prompts := [{ name := "Closing", content := "Kind regards,\n\n" }]
                                  expanded := some true }]
            uncategorized := some [{ name := "Quick Question"
                                     content := "Hi, I have a quick question: " }]
            uncategorized_expanded := some true } ∧
    load_calls_save .absent = true :=
  ⟨rfl, rfl⟩

/-- C5 counterexample: a store file that is present but holds no valid
JSON (an empty file in particular) makes `load_prompts` end in its
`except` branch; it does not return the seeded default document. -/
theorem load_empty_file_errors :
    load_prompts .unreadable = .loadError ∧
    LoadResult.loadError ≠ .ok (backfill_loaded default_prompts_data) :=
  ⟨rfl, by simp⟩

/-- C9: the double-tap detector is a step function of
`last_shift_press_time` alone: on a qualifying key press at time `t` a
toggle is requested iff `t` minus the stored timestamp is strictly below
`DOUBLE_TAP_THRESHOLD_S`, and the stored timestamp becomes `t` in every
case. -/
theorem on_shift_press_spec (s : TapState) (key : Key) (t : ℚ)
    (h : isShiftKey key = true) :
    (on_shift_press s key t).1.last_shift_press_time = t ∧
    ((on_shift_press s key t).2 = true ↔
      t - s.last_shift_press_time < DOUBLE_TAP_THRESHOLD_S) := by
  simp [on_shift_press, h]

/-- C9 witness: a left-shift press at `t = 3/10` after a press at `t = 0`
updates the timestamp and requests a toggle (3/10 < 0.4). -/
theorem on_shift_press_spec_witness :
    (on_shift_press ⟨0⟩ Key.shift_l (3/10)).1.last_shift_press_time = 3/10 ∧
    ((on_shift_press ⟨0⟩ Key.shift_l (3/10)).2 = true ↔
      (3/10 : ℚ) - (0 : ℚ) < DOUBLE_TAP_THRESHOLD_S) :=
  on_shift_press_spec ⟨0⟩ Key.shift_l (3/10) rfl

/-- A small concrete document used to instantiate the hypotheses of the
theorems below. -/
def sampleDoc : Document :=
  { version := some DATA_VERSION
    categories := [{ name := "Email"
                     prompts := [{ name := "Closing", content := "Kind regards,\n\n" }]
                     expanded := true },
                   { name := "Work", prompts := [], expanded := true }]
    uncategorized := [{ name := "Quick Question", content := "Hi, I have a quick question: " }]
    uncategorized_expanded := true }

/-- C6: a successful `add_category` appends `{name, prompts: [],
expanded: true}` and afterwards `get_category_names` contains the name
exactly once; a colliding name (the reserved `"Uncategorized"` included)
is rejected with the duplicate-name warning and the document is
unchanged. -/
theorem add_category_spec (doc : Document) (text : String) (hne : text ≠ "") :
    (text ∉ get_category_names doc →
      add_category doc true text =
        ({ doc with categories :=
            doc.categories ++ [{ name := text, prompts := [], expanded := true }] }, none) ∧
      (get_category_names (add_category doc true text).1).count text = 1) ∧
    (text ∈ get_category_names doc →
      add_category doc true text = (doc, some "A category with this name already exists.")) := by
  constructor
  · intro hmem
    have hres : add_category doc true text =
        ({ doc with categories :=
            doc.categories ++ [{ name := text, prompts := [], expanded := true }] }, none) := by
      simp [add_category, hne, hmem]
    refine ⟨hres, ?_⟩
    have h1 : ¬ text = UNCATEGORIZED_NAME := fun h => hmem (h ▸ List.mem_cons_self _ _)
    have h2 : text ∉ doc.categories.map (fun c => c.name) := fun h =>
      hmem (List.mem_cons_of_mem _ h)
    have h1' : ¬ UNCATEGORIZED_NAME = text := fun h => h1 h.symm
    rw [hres]
    simp [get_category_names, List.count_append, List.count_cons,
      List.count_eq_zero.mpr h2, h1']
  · intro hmem
    simp [add_category, hne, hmem]

/-- C6 witness: adding `"Projects"` to the sample document succeeds and
the name then occurs exactly once; the resulting category list ends with
the fresh empty expanded category. -/
theorem add_category_spec_witness :
    add_category sampleDoc true "Projects" =
      ({ sampleDoc with categories :=
          sampleDoc.categories ++ [{ name := "Projects", prompts := [], expanded := true }] }, none) ∧
    (get_category_names (add_category sampleDoc true "Projects").1).count "Projects" = 1 :=
  (add_category_spec sampleDoc "Projects" (by decide)).1 (by decide)

/-- C7: deleting the reserved `"Uncategorized"` bucket is a silent no-op;
with confirmation, deleting an existing category (unique names assumed,
as the data model demands) removes it from the category list — its name
no longer appears in `get_category_names` — and appends all its prompts,
in order, to the end of the uncategorized list. -/
theorem delete_category_spec (doc : Document) (c : Category)
    (hnodup : (doc.categories.map (fun x => x.name)).Nodup)
    (hmem : c ∈ doc.categories) (hne : c.name ≠ UNCATEGORIZED_NAME) :
    (∀ confirmed, delete_item_category doc UNCATEGORIZED_NAME confirmed = doc) ∧
    (delete_item_category doc c.name true).uncategorized = doc.uncategorized ++ c.prompts ∧
    (delete_item_category doc c.name true).categories = doc.categories.erase c ∧
    c.name ∉ get_category_names (delete_item_category doc c.name true) := by
  have hfind := find?_name_of_mem_nodup doc.categories c hnodup hmem
  have hres : delete_item_category doc c.name true =
      { doc with
        uncategorized := doc.uncategorized ++ c.prompts
        categories := doc.categories.erase c } := by
    simp [delete_item_category, hne, hfind]
  refine ⟨fun confirmed => by simp [delete_item_category], by rw [hres], by rw [hres], ?_⟩
  rw [hres]
  simp only [get_category_names, List.mem_cons]
  rintro (h | h)
  · exact hne h
  · exact name_not_mem_erase_of_nodup doc.categories c hnodup hmem h

/-- C7 witness: deleting `"Email"` from the sample document moves its
`Closing` prompt to the tail of the uncategorized list and removes the
name. -/
theorem delete_category_spec_witness :
    (∀ confirmed, delete_item_category sampleDoc UNCATEGORIZED_NAME confirmed = sampleDoc) ∧
    (delete_item_category sampleDoc "Email" true).uncategorized =
      sampleDoc.uncategorized ++ [{ name := "Closing", content := "Kind regards,\n\n" }] ∧
    (delete_item_category sampleDoc "Email" true).categories =
      sampleDoc.categories.erase
        { name := "Email"
          prompts := [{ name := "Closing", content := "Kind regards,\n\n" }]
          expanded := true } ∧
    "Email" ∉ get_category_names (delete_item_category sampleDoc "Email" true) :=
  delete_category_spec sampleDoc
    { name := "Email"
      prompts := [{ name := "Closing", content := "Kind regards,\n\n" }]
      expanded := true }
    (by decide) (by decide) (by decide)

/-- C8: `add_prompt` with an empty name or content fails with the
input-error warning and leaves the store unchanged; with non-empty data
it appends `{name, content}` to the list resolved from the category
name. -/
theorem add_prompt_spec (doc : Document) (name content category_name : String) :
    ((name = "" ∨ content = "") →
      add_prompt doc true name content category_name =
        (doc, some "Name and content cannot be empty.")) ∧
    (name ≠ "" → content ≠ "" → ∀ l, find_prompt_list doc category_name = some l →
      (add_prompt doc true name content category_name).2 = none ∧
      find_prompt_list (add_prompt doc true name content category_name).1 category_name =
        some (l ++ [{ name := name, content := content }])) := by
  constructor
  · intro h
    simp [add_prompt, h]
  · intro h1 h2 l hl
    have hcond : ¬ (name = "" ∨ content = "") := by
      rintro (h | h)
      · exact h1 h
      · exact h2 h
    have hres : add_prompt doc true name content category_name =
        (set_prompt_list doc category_name (l ++ [{ name := name, content := content }]), none) := by
      simp [add_prompt, hcond, hl]
    rw [hres]
    exact ⟨rfl, find_set_prompt_list_same doc category_name _ l hl⟩

/-- C8 witness: `add_prompt "Sig" "" "Email"` fails and changes nothing;
with a non-empty content the snippet is appended to the Email list. -/
theorem add_prompt_spec_witness :
    add_prompt sampleDoc true "Sig" "" "Email" =
      (sampleDoc, some "Name and content cannot be empty.") ∧
    find_prompt_list (add_prompt sampleDoc true "Sig" "Best, " "Email").1 "Email" =
      some ([{ name := "Closing", content := "Kind regards,\n\n" }] ++
        [{ name := "Sig", content := "Best, " }]) :=
  ⟨(add_prompt_spec sampleDoc "Sig" "" "Email").1 (Or.inr rfl),
   ((add_prompt_spec sampleDoc "Sig" "Best, " "Email").2 (by decide) (by decide)
      [{ name := "Closing", content := "Kind regards,\n\n" }] (by decide)).2⟩

/-- C1 (amended): `handle_prompt_move` is a no-op when the source list
does not resolve or holds no snippet of the given name.  When the first
match is found and the destination resolves, the snippet is removed from
the source, appended to the destination tail, and every other list is
untouched (exclusive ownership is preserved).  But when the destination
does not resolve, the snippet is removed from the source and never
re-added: the move is not a no-op and the snippet is lost. -/
theorem handle_prompt_move_spec (doc : Document) (n fromC toC : String) :
    (find_prompt_list doc fromC = none → handle_prompt_move doc n fromC toC = doc) ∧
    (∀ src, find_prompt_list doc fromC = some src →
      src.find? (fun p => p.name = n) = none → handle_prompt_move doc n fromC toC = doc) ∧
    (∀ src p, find_prompt_list doc fromC = some src →
      src.find? (fun q => q.name = n) = some p →
      (∀ dst, fromC ≠ toC → find_prompt_list doc toC = some dst →
        find_prompt_list (handle_prompt_move doc n fromC toC) fromC = some (src.erase p) ∧
        find_prompt_list (handle_prompt_move doc n fromC toC) toC = some (dst ++ [p]) ∧
        (∀ c, c ≠ fromC → c ≠ toC →
          find_prompt_list (handle_prompt_move doc n fromC toC) c = find_prompt_list doc c)) ∧
      (find_prompt_list doc toC = none →
        find_prompt_list (handle_prompt_move doc n fromC toC) fromC = some (src.erase p) ∧
        (∀ c, c ≠ fromC →
          find_prompt_list (handle_prompt_move doc n fromC toC) c = find_prompt_list doc c))) := by
  refine ⟨?_, ?_, ?_⟩
  · intro h
    simp [handle_prompt_move, h]
  · intro src hsrc hnone
    simp [handle_prompt_move, hsrc, hnone]
  · intro src p hsrc hp
    constructor
    · intro dst hne hdst
      have hdst1 : find_prompt_list (set_prompt_list doc fromC (src.erase p)) toC = some dst := by
        rw [find_set_prompt_list_other doc fromC toC _ hne]
        exact hdst
      have hres : handle_prompt_move doc n fromC toC =
          set_prompt_list (set_prompt_list doc fromC (src.erase p)) toC (dst ++ [p]) := by
        simp [handle_prompt_move, hsrc, hp, hdst1]
      rw [hres]
      refine ⟨?_, ?_, ?_⟩
      · rw [find_set_prompt_list_other _ toC fromC _ (fun h => hne h.symm)]
        exact find_set_prompt_list_same doc fromC _ src hsrc
      · exact find_set_prompt_list_same _ toC _ dst hdst1
      · intro c hcf hct
        rw [find_set_prompt_list_other _ toC c _ (fun h => hct h.symm),
          find_set_prompt_list_other _ fromC c _ (fun h => hcf h.symm)]
    · intro hdst
      have hne : fromC ≠ toC := by
        intro h
        rw [h, hdst] at hsrc
        exact Option.noConfusion hsrc
      have hdst1 : find_prompt_list (set_prompt_list doc fromC (src.erase p)) toC = none := by
        rw [find_set_prompt_list_other doc fromC toC _ hne]
        exact hdst
      have hres : handle_prompt_move doc n fromC toC =
          set_prompt_list doc fromC (src.erase p) := by
        simp [handle_prompt_move, hsrc, hp, hdst1]
      rw [hres]
      refine ⟨find_set_prompt_list_same doc fromC _ src hsrc, ?_⟩
      intro c hcf
      exact find_set_prompt_list_other doc fromC c _ (fun h => hcf h.symm)

/-- C1 counterexample: moving the only uncategorized snippet to the
unresolvable category name `"Nope"` is not a no-op: the snippet is
removed from its source list and re-added nowhere, so the document loses
it. -/
theorem handle_prompt_move_drops_snippet :
    handle_prompt_move
        { version := some 2, categories := [],
          uncategorized := [{ name := "a", content := "1" }], uncategorized_expanded := true }
        "a" UNCATEGORIZED_NAME "Nope" =
      { version := some 2, categories := [], uncategorized := [], uncategorized_expanded := true } ∧
    ({ version := some 2, categories := [], uncategorized := [],
       uncategorized_expanded := true } : Document) ≠
      { version := some 2, categories := [],
        uncategorized := [{ name := "a", content := "1" }], uncategorized_expanded := true } := by
  constructor
  · decide
  · decide

/-- C1 witness: moving `Quick Question` from the uncategorized bucket to
`"Email"` removes it from the source and appends it to the Email list;
the `"Work"` list is untouched. -/
theorem handle_prompt_move_spec_witness :
    find_prompt_list (handle_prompt_move sampleDoc "Quick Question" UNCATEGORIZED_NAME "Email")
        UNCATEGORIZED_NAME =
      some ([{ name := "Quick Question", content := "Hi, I have a quick question: " }].erase
        { name := "Quick Question", content := "Hi, I have a quick question: " }) ∧
    find_prompt_list (handle_prompt_move sampleDoc "Quick Question" UNCATEGORIZED_NAME "Email")
        "Email" =
      some ([{ name := "Closing", content := "Kind regards,\n\n" }] ++
        [{ name := "Quick Question", content := "Hi, I have a quick question: " }]) :=
  ⟨(((handle_prompt_move_spec sampleDoc "Quick Question" UNCATEGORIZED_NAME "Email").2.2
      [{ name := "Quick Question", content := "Hi, I have a quick question: " }]
      { name := "Quick Question", content := "Hi, I have a quick question: " }
      (by decide) (by decide)).1
      [{ name := "Closing", content := "Kind regards,\n\n" }] (by decide) (by decide)).1,
   (((handle_prompt_move_spec sampleDoc "Quick Question" UNCATEGORIZED_NAME "Email").2.2
      [{ name := "Quick Question", content := "Hi, I have a quick question: " }]
      { name := "Quick Question", content := "Hi, I have a quick question: " }
      (by decide) (by decide)).1
      [{ name := "Closing", content := "Kind regards,\n\n" }] (by decide) (by decide)).2.1⟩

theorem pop_insert_eq_of_getElem (l : List Snippet) (i j : Nat) (x : Snippet)
    (h : l[i]? = some x) : pop_insert l i j = (l.eraseIdx i).insertIdx j x := by
  unfold pop_insert
  rw [h]

theorem reorder_core (A B C : List Snippet) (d t : Snippet)
    (hA : ∀ s ∈ A, s.name ≠ d.name)
    (hAdB : ∀ s ∈ A ++ d :: B, s.name ≠ t.name) :
    (A ++ d :: (B ++ t :: C)).findIdx? (fun p => p.name = d.name) = some A.length ∧
    (A ++ d :: (B ++ t :: C)).findIdx? (fun p => p.name = t.name) = some (A ++ d :: B).length ∧
    pop_insert (A ++ d :: (B ++ t :: C)) A.length (A ++ d :: B).length = (A ++ B) ++ t :: d :: C := by
  refine ⟨?_, ?_, ?_⟩
  · exact findIdx?_append_cons_first _ A d (B ++ t :: C)
      (fun a ha => decide_eq_false (hA a ha)) (by simp)
  · have hsplit : A ++ d :: (B ++ t :: C) = (A ++ d :: B) ++ t :: C := by
      simp [List.append_assoc]
    rw [hsplit]
    exact findIdx?_append_cons_first _ (A ++ d :: B) t C
      (fun a ha => decide_eq_false (hAdB a ha)) (by simp)
  · rw [pop_insert_eq_of_getElem _ _ _ d (getElem?_append_cons A d (B ++ t :: C)),
      eraseIdx_append_cons A d (B ++ t :: C)]
    have hlen : (A ++ d :: B).length = ((A ++ B) ++ [t]).length := by
      simp
    have hsplit : A ++ (B ++ t :: C) = ((A ++ B) ++ [t]) ++ C := by
      simp [List.append_assoc]
    rw [hlen, hsplit, insertIdx_append_cons ((A ++ B) ++ [t]) d C]
    simp [List.append_assoc]

theorem reorder_core_later (A B C : List Snippet) (d t : Snippet)
    (hA : ∀ s ∈ A, s.name ≠ t.name)
    (hAtB : ∀ s ∈ A ++ t :: B, s.name ≠ d.name) :
    (A ++ t :: (B ++ d :: C)).findIdx? (fun p => p.name = d.name) = some (A ++ t :: B).length ∧
    (A ++ t :: (B ++ d :: C)).findIdx? (fun p => p.name = t.name) = some A.length ∧
    pop_insert (A ++ t :: (B ++ d :: C)) (A ++ t :: B).length A.length =
      A ++ d :: t :: (B ++ C) := by
  refine ⟨?_, ?_, ?_⟩
  · have hsplit : A ++ t :: (B ++ d :: C) = (A ++ t :: B) ++ d :: C := by
      simp [List.append_assoc]
    rw [hsplit]
    exact findIdx?_append_cons_first _ (A ++ t :: B) d C
      (fun a ha => decide_eq_false (hAtB a ha)) (by simp)
  · exact findIdx?_append_cons_first _ A t (B ++ d :: C)
      (fun a ha => decide_eq_false (hA a ha)) (by simp)
  · have hsplit : A ++ t :: (B ++ d :: C) = (A ++ t :: B) ++ d :: C := by
      simp [List.append_assoc]
    rw [hsplit, pop_insert_eq_of_getElem _ _ _ d (getElem?_append_cons (A ++ t :: B) d C),
      eraseIdx_append_cons (A ++ t :: B) d C]
    have hsplit2 : (A ++ t :: B) ++ C = A ++ t :: (B ++ C) := by
      simp [List.append_assoc]
    rw [hsplit2, insertIdx_append_cons A d (t :: (B ++ C))]

/-- Modelled from the spec for comparison with the implementation: the
reorder semantics in which the dragged snippet is removed first and the
target index is then recomputed on the post-removal list ("reinserts at
the target's index as that index stands after the removal"). -/
def reorderSnippet_post_removal (l : List Snippet) (draggedName targetName : String) :
    List Snippet :=
  match l.findIdx? (fun p => p.name = draggedName) with
  | none => l
  | some i =>
    match l[i]? with
    | none => l
    | some x =>
      match (l.eraseIdx i).findIdx? (fun p => p.name = targetName) with
      | none => l
      | some j => (l.eraseIdx i).insertIdx j x

/-- C2 (amended): `handle_prompt_reorder` removes the dragged snippet and
reinserts it at the target's first-match index as computed before the
removal, in both directions: a snippet dragged from an earlier position
(first conjunct, list `A ++ d :: (B ++ t :: C)`) lands immediately after
the target, and one dragged from a later position (second conjunct, list
`A ++ t :: (B ++ d :: C)`) lands immediately before it.  Applying the
operation twice with dragged and target swapped yields the original list
with the dragged snippet placed adjacent to the target, and restores the
original order exactly when (iff) the two snippets were adjacent
(`B = []`). -/
theorem handle_prompt_reorder_spec (doc : Document) (cn : String)
    (A B C : List Snippet) (d t : Snippet)
    (hd : ∀ s ∈ A ++ B, s.name ≠ d.name)
    (ht : ∀ s ∈ A ++ B, s.name ≠ t.name)
    (htd : t.name ≠ d.name) :
    (find_prompt_list doc cn = some (A ++ d :: (B ++ t :: C)) →
      find_prompt_list (handle_prompt_reorder doc cn d.name t.name) cn =
        some ((A ++ B) ++ t :: d :: C) ∧
      find_prompt_list
          (handle_prompt_reorder (handle_prompt_reorder doc cn d.name t.name) cn t.name d.name)
          cn =
        some ((A ++ B) ++ d :: t :: C) ∧
      (find_prompt_list
          (handle_prompt_reorder (handle_prompt_reorder doc cn d.name t.name) cn t.name d.name)
          cn =
        find_prompt_list doc cn ↔ B = [])) ∧
    (find_prompt_list doc cn = some (A ++ t :: (B ++ d :: C)) →
      find_prompt_list (handle_prompt_reorder doc cn d.name t.name) cn =
        some (A ++ d :: t :: (B ++ C)) ∧
      find_prompt_list
          (handle_prompt_reorder (handle_prompt_reorder doc cn d.name t.name) cn t.name d.name)
          cn =
        some (A ++ t :: d :: (B ++ C)) ∧
      (find_prompt_list
          (handle_prompt_reorder (handle_prompt_reorder doc cn d.name t.name) cn t.name d.name)
          cn =
        find_prompt_list doc cn ↔ B = [])) := by
  have hA_d : ∀ s ∈ A, s.name ≠ d.name := fun s hs => hd s (List.mem_append_left _ hs)
  have hA_t : ∀ s ∈ A, s.name ≠ t.name := fun s hs => ht s (List.mem_append_left _ hs)
  have hB_d : ∀ s ∈ B, s.name ≠ d.name := fun s hs => hd s (List.mem_append_right _ hs)
  constructor
  · intro hfind
    have hAdB : ∀ s ∈ A ++ d :: B, s.name ≠ t.name := by
      intro s hs
      rcases List.mem_append.mp hs with h | h
      · exact ht s (List.mem_append_left _ h)
      · rcases List.mem_cons.mp h with rfl | h
        · exact fun h => htd h.symm
        · exact ht s (List.mem_append_right _ h)
    obtain ⟨hidx1, hidx2, hpop1⟩ := reorder_core A B C d t hA_d hAdB
    have hres1 : handle_prompt_reorder doc cn d.name t.name =
        set_prompt_list doc cn ((A ++ B) ++ t :: d :: C) := by
      unfold handle_prompt_reorder
      rw [hfind]
      simp only [hidx1, hidx2, hpop1]
    have hfind1 : find_prompt_list (handle_prompt_reorder doc cn d.name t.name) cn =
        some ((A ++ B) ++ t :: d :: C) := by
      rw [hres1]
      exact find_set_prompt_list_same doc cn _ _ hfind
    have hAdB2 : ∀ s ∈ (A ++ B) ++ t :: [], s.name ≠ d.name := by
      intro s hs
      rcases List.mem_append.mp hs with h | h
      · exact hd s h
      · rcases List.mem_cons.mp h with rfl | h
        · exact htd
        · simp at h
    obtain ⟨hidx1b, hidx2b, hpop1b⟩ := reorder_core (A ++ B) [] C t d ht hAdB2
    have hl1 : (A ++ B) ++ t :: ([] ++ d :: C) = (A ++ B) ++ t :: d :: C := by simp
    rw [hl1] at hidx1b hidx2b hpop1b
    have hfind2 : find_prompt_list
        (handle_prompt_reorder (handle_prompt_reorder doc cn d.name t.name) cn t.name d.name)
        cn = some ((A ++ B) ++ d :: t :: C) := by
      generalize hdoc2 : handle_prompt_reorder doc cn d.name t.name = doc2 at hfind1 ⊢
      have hres2 : handle_prompt_reorder doc2 cn t.name d.name =
          set_prompt_list doc2 cn ((A ++ B) ++ d :: t :: C) := by
        unfold handle_prompt_reorder
        rw [hfind1]
        simp only [hidx1b, hidx2b, hpop1b]
        simp
      rw [hres2]
      exact find_set_prompt_list_same doc2 cn _ _ hfind1
    refine ⟨hfind1, hfind2, ?_⟩
    rw [hfind2, hfind]
    constructor
    · intro heq
      have heq' : (A ++ B) ++ d :: t :: C = A ++ d :: (B ++ t :: C) := Option.some.inj heq
      rw [List.append_assoc] at heq'
      have heq2 : B ++ d :: t :: C = d :: (B ++ t :: C) := List.append_cancel_left heq'
      cases B with
      | nil => rfl
      | cons b B2 =>
        exfalso
        simp only [List.cons_append] at heq2
        have hb : b = d := by injection heq2
        exact hB_d b (List.mem_cons_self b B2) (congrArg Snippet.name hb)
    · rintro rfl
      simp
  · intro hfind
    have hAtB : ∀ s ∈ A ++ t :: B, s.name ≠ d.name := by
      intro s hs
      rcases List.mem_append.mp hs with h | h
      · exact hA_d s h
      · rcases List.mem_cons.mp h with rfl | h
        · exact htd
        · exact hB_d s h
    obtain ⟨hidx1, hidx2, hpop1⟩ := reorder_core_later A B C d t hA_t hAtB
    have hres1 : handle_prompt_reorder doc cn d.name t.name =
        set_prompt_list doc cn (A ++ d :: t :: (B ++ C)) := by
      unfold handle_prompt_reorder
      rw [hfind]
      simp only [hidx1, hidx2, hpop1]
    have hfind1 : find_prompt_list (handle_prompt_reorder doc cn d.name t.name) cn =
        some (A ++ d :: t :: (B ++ C)) := by
      rw [hres1]
      exact find_set_prompt_list_same doc cn _ _ hfind
    have hAd_t : ∀ s ∈ A ++ d :: [], s.name ≠ t.name := by
      intro s hs
      rcases List.mem_append.mp hs with h | h
      · exact hA_t s h
      · rcases List.mem_cons.mp h with rfl | h
        · exact fun h => htd h.symm
        · simp at h
    obtain ⟨hidx1b, hidx2b, hpop1b⟩ := reorder_core_later A [] (B ++ C) t d hA_d hAd_t
    have hl1 : A ++ d :: ([] ++ t :: (B ++ C)) = A ++ d :: t :: (B ++ C) := by simp
    rw [hl1] at hidx1b hidx2b hpop1b
    have hfind2 : find_prompt_list
        (handle_prompt_reorder (handle_prompt_reorder doc cn d.name t.name) cn t.name d.name)
        cn = some (A ++ t :: d :: (B ++ C)) := by
      generalize hdoc2 : handle_prompt_reorder doc cn d.name t.name = doc2 at hfind1 ⊢
      have hres2 : handle_prompt_reorder doc2 cn t.name d.name =
          set_prompt_list doc2 cn (A ++ t :: d :: (B ++ C)) := by
        unfold handle_prompt_reorder
        rw [hfind1]
        simp only [hidx1b, hidx2b, hpop1b]
        simp
      rw [hres2]
      exact find_set_prompt_list_same doc2 cn _ _ hfind1
    refine ⟨hfind1, hfind2, ?_⟩
    rw [hfind2, hfind]
    constructor
    · intro heq
      have heq' : A ++ t :: d :: (B ++ C) = A ++ t :: (B ++ d :: C) := Option.some.inj heq
      have heq2 : t :: d :: (B ++ C) = t :: (B ++ d :: C) := List.append_cancel_left heq'
      have heq3 : d :: (B ++ C) = B ++ d :: C := by injection heq2
      cases B with
      | nil => rfl
      | cons b B2 =>
        exfalso
        simp only [List.cons_append] at heq3
        have hb : d = b := by injection heq3
        exact hB_d b (List.mem_cons_self b B2) (congrArg Snippet.name hb.symm)
    · rintro rfl
      simp

/-- C2 counterexample: with the list `[a, b, c]`, dragging `a` onto `c`
gives `[b, c, a]` in the code (insertion at the pre-removal index 2 of
`c`), while reinsertion at the target's post-removal index — as the claim
states — gives `[b, a, c]`. -/
theorem handle_prompt_reorder_pre_removal_index :
    (handle_prompt_reorder
        { version := some 2, categories := [],
          uncategorized := [{ name := "a", content := "1" }, { name := "b", content := "2" },
            { name := "c", content := "3" }],
          uncategorized_expanded := true }
        UNCATEGORIZED_NAME "a" "c").uncategorized =
      [{ name := "b", content := "2" }, { name := "c", content := "3" },
        { name := "a", content := "1" }] ∧
    reorderSnippet_post_removal
        [{ name := "a", content := "1" }, { name := "b", content := "2" },
          { name := "c", content := "3" }] "a" "c" =
      [{ name := "b", content := "2" }, { name := "a", content := "1" },
        { name := "c", content := "3" }] ∧
    ([{ name := "b", content := "2" }, { name := "c", content := "3" },
        { name := "a", content := "1" }] : List Snippet) ≠
      [{ name := "b", content := "2" }, { name := "a", content := "1" },
        { name := "c", content := "3" }] := by
  refine ⟨by decide, by decide, by decide⟩

/-- C2 witness: on the concrete list `[q, x, y]` (with `A = []`,
`B = [x]`), dragging the earlier snippet `q` onto `y` gives `[x, y, q]`
(after the target), dragging it back restores nothing further than
`[x, q, y]`; and in the other direction dragging the later snippet `y`
onto `q` gives `[y, q, x]` (before the target). -/
theorem handle_prompt_reorder_spec_witness :
    find_prompt_list
        (handle_prompt_reorder
          { version := some 2, categories := [],
            uncategorized := [{ name := "q", content := "1" }, { name := "x", content := "2" },
              { name := "y", content := "3" }],
            uncategorized_expanded := true }
          UNCATEGORIZED_NAME "q" "y") UNCATEGORIZED_NAME =
      some (([] ++ [{ name := "x", content := "2" }]) ++
        { name := "y", content := "3" } :: { name := "q", content := "1" } :: []) ∧
    find_prompt_list
        (handle_prompt_reorder
          (handle_prompt_reorder
            { version := some 2, categories := [],
              uncategorized := [{ name := "q", content := "1" }, { name := "x", content := "2" },
                { name := "y", content := "3" }],
              uncategorized_expanded := true }
            UNCATEGORIZED_NAME "q" "y")
          UNCATEGORIZED_NAME "y" "q") UNCATEGORIZED_NAME =
      some (([] ++ [{ name := "x", content := "2" }]) ++
        { name := "q", content := "1" } :: { name := "y", content := "3" } :: []) ∧
    find_prompt_list
        (handle_prompt_reorder
          { version := some 2, categories := [],
            uncategorized := [{ name := "q", content := "1" }, { name := "x", content := "2" },
              { name := "y", content := "3" }],
            uncategorized_expanded := true }
          UNCATEGORIZED_NAME "y" "q") UNCATEGORIZED_NAME =
      some ([] ++ { name := "y", content := "3" } :: { name := "q", content := "1" } ::
        ([{ name := "x", content := "2" }] ++ [])) :=
  ⟨((handle_prompt_reorder_spec
      { version := some 2, categories := [],
        uncategorized := [{ name := "q", content := "1" }, { name := "x", content := "2" },
          { name := "y", content := "3" }],
        uncategorized_expanded := true }
      UNCATEGORIZED_NAME [] [{ name := "x", content := "2" }] []
      { name := "q", content := "1" } { name := "y", content := "3" }
      (by decide) (by decide) (by decide)).1 (by decide)).1,
   ((handle_prompt_reorder_spec
      { version := some 2, categories := [],
        uncategorized := [{ name := "q", content := "1" }, { name := "x", content := "2" },
          { name := "y", content := "3" }],
        uncategorized_expanded := true }
      UNCATEGORIZED_NAME [] [{ name := "x", content := "2" }] []
      { name := "q", content := "1" } { name := "y", content := "3" }
      (by decide) (by decide) (by decide)).1 (by decide)).2.1,
   ((handle_prompt_reorder_spec
      { version := some 2, categories := [],
        uncategorized := [{ name := "q", content := "1" }, { name := "x", content := "2" },
          { name := "y", content := "3" }],
        uncategorized_expanded := true }
      UNCATEGORIZED_NAME [] [{ name := "x", content := "2" }] []
      { name := "y", content := "3" } { name := "q", content := "1" }
      (by decide) (by decide) (by decide)).2 (by decide)).1⟩

/-- C10: both drag-reorder handlers are pure permutations.
`handle_prompt_reorder` permutes at most the addressed prompt list and
changes nothing else (names, flags, version, the other lists);
`handle_category_reorder` permutes the category list and changes nothing
else; and when either name has no first-match index, the document is
returned completely unchanged. -/
theorem reorder_perm_invariant :
    (∀ doc cn dn tn, DocPerm (handle_prompt_reorder doc cn dn tn) doc) ∧
    (∀ doc dn tn,
      ((handle_category_reorder doc dn tn).categories).Perm doc.categories ∧
      (handle_category_reorder doc dn tn).version = doc.version ∧
      (handle_category_reorder doc dn tn).uncategorized = doc.uncategorized ∧
      (handle_category_reorder doc dn tn).uncategorized_expanded =
        doc.uncategorized_expanded) ∧
    (∀ doc cn dn tn l, find_prompt_list doc cn = some l →
      (l.findIdx? (fun p => p.name = dn) = none ∨
        l.findIdx? (fun p => p.name = tn) = none) →
      handle_prompt_reorder doc cn dn tn = doc) ∧
    (∀ doc dn tn,
      (doc.categories.findIdx? (fun c => c.name = dn) = none ∨
        doc.categories.findIdx? (fun c => c.name = tn) = none) →
      handle_category_reorder doc dn tn = doc) := by
  refine ⟨?_, ?_, ?_, ?_⟩
  · intro doc cn dn tn
    cases hf : find_prompt_list doc cn with
    | none =>
      have hres : handle_prompt_reorder doc cn dn tn = doc := by
        unfold handle_prompt_reorder
        simp only [hf]
      rw [hres]
      exact docPerm_refl doc
    | some l =>
      cases h1 : l.findIdx? (fun p => p.name = dn) with
      | none =>
        have hres : handle_prompt_reorder doc cn dn tn = doc := by
          unfold handle_prompt_reorder
          simp only [hf, h1]
        rw [hres]
        exact docPerm_refl doc
      | some i =>
        cases h2 : l.findIdx? (fun p => p.name = tn) with
        | none =>
          have hres : handle_prompt_reorder doc cn dn tn = doc := by
            unfold handle_prompt_reorder
            simp only [hf, h1, h2]
          rw [hres]
          exact docPerm_refl doc
        | some j =>
          have hj : j < l.length := (List.findIdx?_eq_some_iff_findIdx_eq.mp h2).1
          have hres : handle_prompt_reorder doc cn dn tn =
              set_prompt_list doc cn (pop_insert l i j) := by
            unfold handle_prompt_reorder
            simp only [hf, h1, h2]
          rw [hres]
          exact docPerm_set_prompt_list doc cn _ l hf (pop_insert_perm l i j hj)
  · intro doc dn tn
    cases h1 : doc.categories.findIdx? (fun c => c.name = dn) with
    | none =>
      have hres : handle_category_reorder doc dn tn = doc := by
        unfold handle_category_reorder
        simp only [h1]
      rw [hres]
      exact ⟨List.Perm.refl _, rfl, rfl, rfl⟩
    | some i =>
      cases h2 : doc.categories.findIdx? (fun c => c.name = tn) with
      | none =>
        have hres : handle_category_reorder doc dn tn = doc := by
          unfold handle_category_reorder
          simp only [h1, h2]
        rw [hres]
        exact ⟨List.Perm.refl _, rfl, rfl, rfl⟩
      | some j =>
        have hj : j < doc.categories.length := (List.findIdx?_eq_some_iff_findIdx_eq.mp h2).1
        have hres : handle_category_reorder doc dn tn =
            { doc with categories := pop_insert_cat doc.categories i j } := by
          unfold handle_category_reorder
          simp only [h1, h2]
        rw [hres]
        exact ⟨pop_insert_cat_perm doc.categories i j hj, rfl, rfl, rfl⟩
  · intro doc cn dn tn l hf hnone
    unfold handle_prompt_reorder
    rcases hnone with h | h
    · simp only [hf, h]
    · simp only [hf, h]
      cases l.findIdx? (fun p => p.name = dn) <;> rfl
  · intro doc dn tn hnone
    unfold handle_category_reorder
    rcases hnone with h | h
    · simp only [h]
    · simp only [h]
      cases doc.categories.findIdx? (fun c => c.name = dn) <;> rfl

/-- C10 witness: reordering with the missing name `"nope"` leaves the
sample document untouched. -/
theorem reorder_perm_invariant_witness :
    handle_prompt_reorder sampleDoc UNCATEGORIZED_NAME "nope" "Quick Question" = sampleDoc :=
  reorder_perm_invariant.2.2.1 sampleDoc UNCATEGORIZED_NAME "nope" "Quick Question"
    [{ name := "Quick Question", content := "Hi, I have a quick question: " }]
    (by decide) (Or.inl (by decide))

end ShiftPrompter
